import Mathlib

/-!
Verification of the zero-of-functions solver (`ZOF_CLI.py`, with the web
variant in `app.py`).  Python floats are modelled as rationals `ℚ`; the
claims under study concern control flow, logged records, error raising and
exact algebraic relations between logged quantities, none of which depend
on binary rounding.  A Python `raise` inside an iteration loop is modelled
as an `Except.error` carrying, besides the error value, the loop-local
iteration log as it stood at the moment of the raise.
-/

namespace ZOF

/-- Runtime errors raised by the Python program: `ValueError`,
`ZeroDivisionError`, `NameError` (unknown identifier during `eval`) and
`UnboundLocalError` (a local read before assignment). -/
inductive PyErr where
  | valueError (msg : String)
  | zeroDivisionError (msg : String)
  | nameError (nm : String)
  | unboundLocal (nm : String)
  deriving Repr, DecidableEq

/-! ## Expression sandbox (`make_function`)

`MATH_NAMES = {k: getattr(math, k) for k in dir(math) if not k.startswith("_")}`
updated with `abs` and `pow`; `eval` runs with `{"__builtins__": None}` as
globals and `MATH_NAMES ∪ {x}` as locals, so exactly these names (plus the
variable `x`) resolve, and any other identifier raises `NameError` at
evaluation time. -/

/-- The keys of `MATH_NAMES`: the public names of Python's `math` module
(no leading underscore) together with the builtins `abs` and `pow` that the
source adds explicitly.  Dunder names such as `__import__` are excluded by
the `startswith("_")` filter and builtins are disabled. -/
def MATH_KEYS : List String :=
  ["acos", "acosh", "asin", "asinh", "atan", "atan2", "atanh", "ceil",
   "comb", "copysign", "cos", "cosh", "degrees", "dist", "e", "erf",
   "erfc", "exp", "expm1", "fabs", "factorial", "floor", "fmod", "frexp",
   "fsum", "gamma", "gcd", "hypot", "inf", "isclose", "isfinite", "isinf",
   "isnan", "isqrt", "lcm", "ldexp", "lgamma", "log", "log10", "log1p",
   "log2", "modf", "nan", "nextafter", "perm", "pi", "pow", "prod",
   "radians", "remainder", "sin", "sinh", "sqrt", "tan", "tanh", "tau",
   "trunc", "ulp", "abs"]

/-- Abstract syntax of the expression strings the user types: numbers, the
free variable `x`, named constants, arithmetic, and calls `name(arg)`.
In `name(arg)` Python resolves the callee identifier before evaluating the
argument, so for the claims below the argument's value is irrelevant when
the callee is not whitelisted (e.g. `__import__('os')`). -/
inductive Expr where
  | num (q : ℚ)
  | var
  | const (nm : String)
  | neg (e : Expr)
  | add (e₁ e₂ : Expr)
  | sub (e₁ e₂ : Expr)
  | mul (e₁ e₂ : Expr)
  | div (e₁ e₂ : Expr)
  | call (nm : String) (arg : Expr)
  deriving Repr, DecidableEq

/-- Interpretation of the whitelisted `math` functions and constants.  The
claims under study depend only on which names resolve, never on the value a
whitelisted transcendental function returns, so the numeric semantics is a
parameter. -/
structure MathEnv where
  callf : String → ℚ → Except PyErr ℚ
  constv : String → ℚ

/-- A concrete interpretation, used only to instantiate environment-generic
theorems at a closed point. -/
def defaultEnv : MathEnv := ⟨fun _ _ => .ok 0, fun _ => 0⟩

/-- Evaluation of an expression at `x`, mirroring Python `eval` with
globals `{"__builtins__": None}` and locals `MATH_NAMES ∪ {x}`: an
identifier outside the whitelist raises `NameError`, division by zero
raises `ZeroDivisionError`, operands are evaluated left to right. -/
def evalExpr (env : MathEnv) : Expr → ℚ → Except PyErr ℚ
  | .num q, _ => .ok q
  | .var, x => .ok x
  | .const nm, _ =>
      if MATH_KEYS.contains nm then .ok (env.constv nm)
      else .error (.nameError nm)
  | .neg e, x =>
      match evalExpr env e x with
      | .error er => .error er
      | .ok v => .ok (-v)
  | .add e₁ e₂, x =>
      match evalExpr env e₁ x with
      | .error er => .error er
      | .ok v₁ =>
        match evalExpr env e₂ x with
        | .error er => .error er
        | .ok v₂ => .ok (v₁ + v₂)
  | .sub e₁ e₂, x =>
      match evalExpr env e₁ x with
      | .error er => .error er
      | .ok v₁ =>
        match evalExpr env e₂ x with
        | .error er => .error er
        | .ok v₂ => .ok (v₁ - v₂)
  | .mul e₁ e₂, x =>
      match evalExpr env e₁ x with
      | .error er => .error er
      | .ok v₁ =>
        match evalExpr env e₂ x with
        | .error er => .error er
        | .ok v₂ => .ok (v₁ * v₂)
  | .div e₁ e₂, x =>
      match evalExpr env e₁ x with
      | .error er => .error er
      | .ok v₁ =>
        match evalExpr env e₂ x with
        | .error er => .error er
        | .ok v₂ =>
          if v₂ = 0 then .error (.zeroDivisionError "float division by zero")
          else .ok (v₁ / v₂)
  | .call nm arg, x =>
      if MATH_KEYS.contains nm then
        match evalExpr env arg x with
        | .error er => .error er
        | .ok v => env.callf nm v
      else .error (.nameError nm)

/-- Render an evaluation error, standing in for Python's `str(e)`. -/
def errText : PyErr → String
  | .valueError m => m
  | .zeroDivisionError m => m
  | .nameError nm => "name " ++ nm ++ " is not defined"
  | .unboundLocal nm => "local variable " ++ nm ++ " referenced before assignment"

/-- `make_function` of `ZOF_CLI.py`.  Its body only strips the string and
builds the closure `f`; it performs no parsing or validation of its own, so
it succeeds on every expression.  The closure evaluates the expression at
call time and wraps any failure into
`ValueError("Error evaluating expression at x=...")`. -/
def make_function (env : MathEnv) (expr : Expr) :
    Except PyErr (ℚ → Except PyErr ℚ) :=
  .ok (fun x =>
    match evalExpr env expr x with
    | .ok v => .ok v
    | .error er =>
        .error (.valueError ("Error evaluating expression at x=" ++ toString x
          ++ ": " ++ errText er)))

/-- Decides whether an expression mentions an identifier (constant or
callee) outside the whitelist. -/
def usesUnlisted : Expr → Bool
  | .num _ => false
  | .var => false
  | .const nm => !(MATH_KEYS.contains nm)
  | .neg e => usesUnlisted e
  | .add e₁ e₂ => usesUnlisted e₁ || usesUnlisted e₂
  | .sub e₁ e₂ => usesUnlisted e₁ || usesUnlisted e₂
  | .mul e₁ e₂ => usesUnlisted e₁ || usesUnlisted e₂
  | .div e₁ e₂ => usesUnlisted e₁ || usesUnlisted e₂
  | .call nm arg => !(MATH_KEYS.contains nm) || usesUnlisted arg

/-- The spec's example expression `__import__('os')`: a call whose callee
identifier is `__import__`.  Python resolves the callee name first, so the
argument (the string literal `'os'`) is never evaluated; it is represented
by an arbitrary atom. -/
def importOS : Expr := .call "__import__" (.num 0)

/-! ## The six root-finding methods of `ZOF_CLI.py`

Each loop `for i in range(1, max_iter + 1)` is embedded as structural
recursion on the remaining fuel, with `maxIter` total fuel, so termination
within `max_iter` steps is intrinsic to the embedding.  The iteration
index is `i = maxIter - fuel` in the branch that matches `fuel + 1`. -/

/-- One row of a bracketing method's log: `(i, a, b, c, fa, fb, fc, err)`. -/
structure BrRow where
  i : ℕ
  a : ℚ
  b : ℚ
  c : ℚ
  fa : ℚ
  fb : ℚ
  fc : ℚ
  err : ℚ
  deriving Repr, DecidableEq

/-- One row of the secant log: `(i, x0, x1, x2, f0, f1, err)`. -/
structure SecRow where
  i : ℕ
  x0 : ℚ
  x1 : ℚ
  x2 : ℚ
  f0 : ℚ
  f1 : ℚ
  err : ℚ
  deriving Repr, DecidableEq

/-- One row of the Newton-Raphson log: `(i, x, x_new, fx, dfx, err)`. -/
structure NRow where
  i : ℕ
  x : ℚ
  x_new : ℚ
  fx : ℚ
  dfx : ℚ
  err : ℚ
  deriving Repr, DecidableEq

/-- One row of the fixed-point log: `(i, x, x_new, err)`. -/
structure FpRow where
  i : ℕ
  x : ℚ
  x_new : ℚ
  err : ℚ
  deriving Repr, DecidableEq

/-- One row of the modified-secant log: `(i, x, x_new, fx, err)`. -/
structure MsRow where
  i : ℕ
  x : ℚ
  x_new : ℚ
  fx : ℚ
  err : ℚ
  deriving Repr, DecidableEq

/-- Result of a solver run: `(root, final error, iterations used, log)`. -/
abbrev SolveRes (ρ : Type) := ℚ × ℚ × ℕ × List ρ

/-- A raised exception paired with the loop-local log at the raise point. -/
abbrev SolveExc (ρ : Type) := PyErr × List ρ

/-- The `for` loop of `bisection`.  It cannot raise, so it returns a plain
tuple; the fuel-0 case is the fall-through
`return (a + b) / 2.0, abs(b - a) / 2.0, max_iter, logs`. -/
def bisectGo (f : ℚ → ℚ) (tol : ℚ) (maxIter : ℕ) :
    ℕ → ℚ → ℚ → ℚ → ℚ → List BrRow → SolveRes BrRow
  | 0, a, b, _, _, logs => ((a + b) / 2, |b - a| / 2, maxIter, logs)
  | fuel + 1, a, b, fa, fb, logs =>
      let i := maxIter - fuel
      let c := (a + b) / 2
      let fc := f c
      let err := |b - a| / 2
      let logs' := logs ++ [⟨i, a, b, c, fa, fb, fc, err⟩]
      if |fc| < tol ∨ err < tol then (c, err, i, logs')
      else if fa * fc < 0 then bisectGo f tol maxIter fuel a c fa fc logs'
      else bisectGo f tol maxIter fuel c b fc fb logs'

/-- `bisection` of `ZOF_CLI.py`: evaluate the endpoints, reject a
same-signed bracket with `ValueError` before any iteration (the log is
still empty at that point), otherwise run the loop. -/
def bisection (f : ℚ → ℚ) (a b tol : ℚ) (maxIter : ℕ) :
    Except (SolveExc BrRow) (SolveRes BrRow) :=
  let fa := f a
  let fb := f b
  if fa * fb > 0 then
    .error (.valueError "Bisection requires f(a) and f(b) to have opposite signs.", [])
  else .ok (bisectGo f tol maxIter maxIter a b fa fb [])

/-- The `for` loop of `regula_falsi`.  `c` and `fc` are the loop-carried
values of the Python locals of the same names (`c` is initialised to `a`
before the loop, `fc` is unbound until the first iteration assigns it, so
the fall-through `return c, abs(fc), max_iter, logs` raises
`UnboundLocalError` when the loop never ran).  The division computing `c`
raises `ZeroDivisionError` when `fb - fa == 0`. -/
def regulaGo (f : ℚ → ℚ) (tol : ℚ) (maxIter : ℕ) :
    ℕ → ℚ → ℚ → ℚ → ℚ → ℚ → Option ℚ → List BrRow →
      Except (SolveExc BrRow) (SolveRes BrRow)
  | 0, _, _, _, _, c, fcOpt, logs =>
      match fcOpt with
      | some fc => .ok (c, |fc|, maxIter, logs)
      | none => .error (.unboundLocal "fc", logs)
  | fuel + 1, a, b, fa, fb, _, _, logs =>
      let i := maxIter - fuel
      if fb - fa = 0 then .error (.zeroDivisionError "float division by zero", logs)
      else
        let c := (a * fb - b * fa) / (fb - fa)
        let fc := f c
        let err := |fc|
        let logs' := logs ++ [⟨i, a, b, c, fa, fb, fc, err⟩]
        if |fc| < tol then .ok (c, err, i, logs')
        else if fa * fc < 0 then
          regulaGo f tol maxIter fuel a c fa fc c (some fc) logs'
        else regulaGo f tol maxIter fuel c b fc fb c (some fc) logs'

/-- `regula_falsi` of `ZOF_CLI.py`: same bracket precondition as
`bisection`, then the weighted-point loop. -/
def regula_falsi (f : ℚ → ℚ) (a b tol : ℚ) (maxIter : ℕ) :
    Except (SolveExc BrRow) (SolveRes BrRow) :=
  let fa := f a
  let fb := f b
  if fa * fb > 0 then
    .error (.valueError "Regula Falsi requires f(a) and f(b) to have opposite signs.", [])
  else regulaGo f tol maxIter maxIter a b fa fb a none []

/-- The `for` loop of `secant`.  The fall-through
`return x1, abs(x1 - x0), max_iter, logs` uses the loop-carried window, so
it is well defined even when the loop never ran. -/
def secantGo (f : ℚ → ℚ) (tol : ℚ) (maxIter : ℕ) :
    ℕ → ℚ → ℚ → List SecRow → Except (SolveExc SecRow) (SolveRes SecRow)
  | 0, x0, x1, logs => .ok (x1, |x1 - x0|, maxIter, logs)
  | fuel + 1, x0, x1, logs =>
      let i := maxIter - fuel
      let f0 := f x0
      let f1 := f x1
      if f1 - f0 = 0 then
        .error (.zeroDivisionError "Division by zero in secant step", logs)
      else
        let x2 := x1 - f1 * (x1 - x0) / (f1 - f0)
        let err := |x2 - x1|
        let logs' := logs ++ [⟨i, x0, x1, x2, f0, f1, err⟩]
        if err < tol then .ok (x2, err, i, logs')
        else secantGo f tol maxIter fuel x1 x2 logs'

/-- `secant` of `ZOF_CLI.py`. -/
def secant (f : ℚ → ℚ) (x0 x1 tol : ℚ) (maxIter : ℕ) :
    Except (SolveExc SecRow) (SolveRes SecRow) :=
  secantGo f tol maxIter maxIter x0 x1 []

/-- The `for` loop of `newton_raphson`.  `errOpt` is the Python local
`err`, unbound (`none`) until the first iteration assigns it; the
fall-through `return x, err, max_iter, logs` therefore raises
`UnboundLocalError` when `max_iter == 0`.  A zero derivative raises before
the failing iteration is logged. -/
def newtonGo (f df : ℚ → ℚ) (tol : ℚ) (maxIter : ℕ) :
    ℕ → ℚ → Option ℚ → List NRow → Except (SolveExc NRow) (SolveRes NRow)
  | 0, x, errOpt, logs =>
      match errOpt with
      | some err => .ok (x, err, maxIter, logs)
      | none => .error (.unboundLocal "err", logs)
  | fuel + 1, x, _, logs =>
      let i := maxIter - fuel
      let fx := f x
      let dfx := df x
      if dfx = 0 then
        .error (.zeroDivisionError "Zero derivative encountered in Newton-Raphson", logs)
      else
        let x_new := x - fx / dfx
        let err := |x_new - x|
        let logs' := logs ++ [⟨i, x, x_new, fx, dfx, err⟩]
        if err < tol then .ok (x_new, err, i, logs')
        else newtonGo f df tol maxIter fuel x_new (some err) logs'

/-- `newton_raphson` of `ZOF_CLI.py`. -/
def newton_raphson (f df : ℚ → ℚ) (x0 tol : ℚ) (maxIter : ℕ) :
    Except (SolveExc NRow) (SolveRes NRow) :=
  newtonGo f df tol maxIter maxIter x0 none []

/-- The `for` loop of `fixed_point`; `errOpt` as in `newtonGo`. -/
def fixedGo (g : ℚ → ℚ) (tol : ℚ) (maxIter : ℕ) :
    ℕ → ℚ → Option ℚ → List FpRow → Except (SolveExc FpRow) (SolveRes FpRow)
  | 0, x, errOpt, logs =>
      match errOpt with
      | some err => .ok (x, err, maxIter, logs)
      | none => .error (.unboundLocal "err", logs)
  | fuel + 1, x, _, logs =>
      let i := maxIter - fuel
      let x_new := g x
      let err := |x_new - x|
      let logs' := logs ++ [⟨i, x, x_new, err⟩]
      if err < tol then .ok (x_new, err, i, logs')
      else fixedGo g tol maxIter fuel x_new (some err) logs'

/-- `fixed_point` of `ZOF_CLI.py`. -/
def fixed_point (g : ℚ → ℚ) (x0 tol : ℚ) (maxIter : ℕ) :
    Except (SolveExc FpRow) (SolveRes FpRow) :=
  fixedGo g tol maxIter maxIter x0 none []

/-- The `for` loop of `modified_secant`; `errOpt` as in `newtonGo`.  The
perturbation is relative: `denom = f(x + delta*x) - f(x)`. -/
def modSecGo (f : ℚ → ℚ) (delta tol : ℚ) (maxIter : ℕ) :
    ℕ → ℚ → Option ℚ → List MsRow → Except (SolveExc MsRow) (SolveRes MsRow)
  | 0, x, errOpt, logs =>
      match errOpt with
      | some err => .ok (x, err, maxIter, logs)
      | none => .error (.unboundLocal "err", logs)
  | fuel + 1, x, _, logs =>
      let i := maxIter - fuel
      let fx := f x
      let denom := f (x + delta * x) - fx
      if denom = 0 then
        .error (.zeroDivisionError "Denominator zero in modified secant", logs)
      else
        let x_new := x - delta * x * fx / denom
        let err := |x_new - x|
        let logs' := logs ++ [⟨i, x, x_new, fx, err⟩]
        if err < tol then .ok (x_new, err, i, logs')
        else modSecGo f delta tol maxIter fuel x_new (some err) logs'

/-- `modified_secant` of `ZOF_CLI.py`. -/
def modified_secant (f : ℚ → ℚ) (x0 delta tol : ℚ) (maxIter : ℕ) :
    Except (SolveExc MsRow) (SolveRes MsRow) :=
  modSecGo f delta tol maxIter maxIter x0 none []

/-! ## The Newton branch of `index` in `app.py`

`result` is initialised to `None` at the top of `index`; on the `newton`
branch nothing assigns it before the line
`result = {'root': root, 'error': abs(result['root'] - x) if result else None, 'logs': logs}`,
so the conditional reads the still-`None` `result` and the `error` field is
always `None`. -/

/-- The dictionary the `newton` branch of `index` builds; `error` is
`Option ℚ` because the code can (and does) store `None` there. -/
structure WebNewtonResult where
  root : ℚ
  error : Option ℚ
  logs : List NRow
  deriving Repr, DecidableEq

/-- The value of the Python local `result` when the `newton` branch reaches
its final assignment: still the `None` it was initialised to. -/
def index_prior_result : Option WebNewtonResult := none

/-- The inline Newton loop of `index` (`app.py`).  It returns the root (by
`break` with `root = x_new`, or via the `for`-`else` with `root = x`), the
final value of the local `x`, and the log. -/
def webNewtonGo (f df : ℚ → ℚ) (tol : ℚ) (maxIter : ℕ) :
    ℕ → ℚ → List NRow → Except (SolveExc NRow) (ℚ × ℚ × List NRow)
  | 0, x, logs => .ok (x, x, logs)
  | fuel + 1, x, logs =>
      let i := maxIter - fuel
      let fx := f x
      let dfx := df x
      if dfx = 0 then .error (.zeroDivisionError "Zero derivative", logs)
      else
        let x_new := x - fx / dfx
        let err := |x_new - x|
        let logs' := logs ++ [⟨i, x, x_new, fx, dfx, err⟩]
        if err < tol then .ok (x_new, x, logs')
        else webNewtonGo f df tol maxIter fuel x_new logs'

/-- The `newton` branch of `index` (`app.py`): run the loop, then build
`{'root': root, 'error': abs(result['root'] - x) if result else None, 'logs': logs}`
where `result` is `index_prior_result`. -/
def webNewton (f df : ℚ → ℚ) (x0 tol : ℚ) (maxIter : ℕ) :
    Except (SolveExc NRow) WebNewtonResult :=
  match webNewtonGo f df tol maxIter maxIter x0 [] with
  | .error e => .error e
  | .ok (root, xFinal, logs) =>
      .ok { root := root
            error :=
              match index_prior_result with
              | some r => some |r.root - xFinal|
              | none => none
            logs := logs }

/-! ## Sandbox lemmas -/

instance {ε α : Type} [DecidableEq ε] [DecidableEq α] :
    DecidableEq (Except ε α) := fun a b =>
  match a, b with
  | .error e₁, .error e₂ =>
      if h : e₁ = e₂ then .isTrue (by rw [h])
      else .isFalse (by intro hc; cases hc; exact h rfl)
  | .error _, .ok _ => .isFalse (by intro hc; cases hc)
  | .ok _, .error _ => .isFalse (by intro hc; cases hc)
  | .ok v₁, .ok v₂ =>
      if h : v₁ = v₂ then .isTrue (by rw [h])
      else .isFalse (by intro hc; cases hc; exact h rfl)

/-- Evaluation is strict, so an expression mentioning an identifier outside
the whitelist always fails at evaluation time, whatever `x` is. -/
theorem evalExpr_unlisted_error (env : MathEnv) :
    ∀ (e : Expr) (x : ℚ), usesUnlisted e = true →
      ∃ er, evalExpr env e x = .error er := by
  intro e
  induction e with
  | num q => intro x h; simp [usesUnlisted] at h
  | var => intro x h; simp [usesUnlisted] at h
  | const nm =>
      intro x h
      simp only [usesUnlisted, Bool.not_eq_eq_eq_not, Bool.not_true] at h
      have h' : nm ∉ MATH_KEYS := by simpa using h
      exact ⟨.nameError nm, by simp [evalExpr, h']⟩
  | neg e ih =>
      intro x h
      simp only [usesUnlisted] at h
      obtain ⟨er, her⟩ := ih x h
      exact ⟨er, by simp [evalExpr, her]⟩
  | add e₁ e₂ ih₁ ih₂ =>
      intro x h
      simp only [usesUnlisted, Bool.or_eq_true] at h
      rcases h with h | h
      · obtain ⟨er, her⟩ := ih₁ x h
        exact ⟨er, by simp [evalExpr, her]⟩
      · cases hc : evalExpr env e₁ x with
        | error er => exact ⟨er, by simp [evalExpr, hc]⟩
        | ok v =>
            obtain ⟨er, her⟩ := ih₂ x h
            exact ⟨er, by simp [evalExpr, hc, her]⟩
  | sub e₁ e₂ ih₁ ih₂ =>
      intro x h
      simp only [usesUnlisted, Bool.or_eq_true] at h
      rcases h with h | h
      · obtain ⟨er, her⟩ := ih₁ x h
        exact ⟨er, by simp [evalExpr, her]⟩
      · cases hc : evalExpr env e₁ x with
        | error er => exact ⟨er, by simp [evalExpr, hc]⟩
        | ok v =>
            obtain ⟨er, her⟩ := ih₂ x h
            exact ⟨er, by simp [evalExpr, hc, her]⟩
  | mul e₁ e₂ ih₁ ih₂ =>
      intro x h
      simp only [usesUnlisted, Bool.or_eq_true] at h
      rcases h with h | h
      · obtain ⟨er, her⟩ := ih₁ x h
        exact ⟨er, by simp [evalExpr, her]⟩
      · cases hc : evalExpr env e₁ x with
        | error er => exact ⟨er, by simp [evalExpr, hc]⟩
        | ok v =>
            obtain ⟨er, her⟩ := ih₂ x h
            exact ⟨er, by simp [evalExpr, hc, her]⟩
  | div e₁ e₂ ih₁ ih₂ =>
      intro x h
      simp only [usesUnlisted, Bool.or_eq_true] at h
      rcases h with h | h
      · obtain ⟨er, her⟩ := ih₁ x h
        exact ⟨er, by simp [evalExpr, her]⟩
      · cases hc : evalExpr env e₁ x with
        | error er => exact ⟨er, by simp [evalExpr, hc]⟩
        | ok v =>
            obtain ⟨er, her⟩ := ih₂ x h
            exact ⟨er, by simp [evalExpr, hc, her]⟩
  | call nm arg ih =>
      intro x h
      simp only [usesUnlisted, Bool.or_eq_true, Bool.not_eq_eq_eq_not,
        Bool.not_true] at h
      rcases h with h | h
      · have h' : nm ∉ MATH_KEYS := by simpa using h
        exact ⟨.nameError nm, by simp [evalExpr, h']⟩
      · by_cases hk : nm ∈ MATH_KEYS
        · obtain ⟨er, her⟩ := ih x h
          exact ⟨er, by simp [evalExpr, hk, her]⟩
        · exact ⟨.nameError nm, by simp [evalExpr, hk]⟩

/-- C1, counterexample.  `make_function` applied to the model of
`__import__('os')` succeeds and hands back a callable — no
`InvalidExpressionError` is raised at compile time; the unknown identifier
is only detected when the callable is evaluated. -/
theorem make_function_import_compiles :
    (∃ g, make_function defaultEnv importOS = .ok g) ∧
    evalExpr defaultEnv importOS 0 = .error (.nameError "__import__") :=
  ⟨⟨_, rfl⟩, by decide⟩

/-- C1, amended.  `make_function` performs no validation: for every
expression that references an identifier outside the whitelist it still
returns a callable, and that callable fails (with the `ValueError` wrapper
of the evaluation-time `NameError`) whenever it is invoked. -/
theorem make_function_no_compile_check (env : MathEnv) (e : Expr)
    (he : usesUnlisted e = true) :
    ∃ g, make_function env e = .ok g ∧
      ∀ x : ℚ, ∃ msg, g x = .error (.valueError msg) := by
  refine ⟨_, rfl, ?_⟩
  intro x
  obtain ⟨er, her⟩ := evalExpr_unlisted_error env e x he
  refine ⟨"Error evaluating expression at x=" ++ toString x ++ ": " ++ errText er, ?_⟩
  simp only [her]

/-- C1, witness for the amended theorem, at `__import__('os')`. -/
theorem make_function_no_compile_check_witness :
    ∃ g, make_function defaultEnv importOS = .ok g ∧
      ∀ x : ℚ, ∃ msg, g x = .error (.valueError msg) :=
  make_function_no_compile_check defaultEnv importOS (by decide)

/-! ## C10: modified secant at the degenerate guess `x0 = 0` -/

/-- C10.  With initial guess `x0 = 0` the relative perturbation
`delta * x` collapses to `0`, so the very first iteration computes
`denom = f(0) - f(0) = 0` and raises the zero-denominator error with the
iteration log still empty. -/
theorem modified_secant_zero_guess (f : ℚ → ℚ) (delta tol : ℚ)
    (maxIter : ℕ) (hmi : 1 ≤ maxIter) :
    modified_secant f 0 delta tol maxIter =
      .error (.zeroDivisionError "Denominator zero in modified secant", []) := by
  obtain ⟨n, rfl⟩ : ∃ n, maxIter = n + 1 := ⟨maxIter - 1, by omega⟩
  show modSecGo f delta tol (n + 1) (n + 1) 0 none [] = _
  simp [modSecGo]

/-- C10, witness. -/
theorem modified_secant_zero_guess_witness :
    modified_secant (fun x => x) 0 (1 / 1000) (1 / 1000000) 1 =
      .error (.zeroDivisionError "Denominator zero in modified secant", []) :=
  modified_secant_zero_guess (fun x => x) (1 / 1000) (1 / 1000000) 1 (by decide)

/-! ## C3: the web Newton branch's final error field -/

/-- C3.  Whenever the Newton branch of `index` returns a result instead of
raising, its `error` field is `None`, not a non-negative real: the guard
`abs(result['root'] - x) if result else None` reads the `result` variable
that is still `None` at that point. -/
theorem webNewton_error_none (f df : ℚ → ℚ) (x0 tol : ℚ) (maxIter : ℕ)
    (r : WebNewtonResult) (h : webNewton f df x0 tol maxIter = .ok r) :
    r.error = none := by
  unfold webNewton at h
  cases hgo : webNewtonGo f df tol maxIter maxIter x0 [] with
  | error e => rw [hgo] at h; cases h
  | ok t =>
      obtain ⟨root, xF, logs⟩ := t
      rw [hgo] at h
      cases h
      rfl

/-- C3, witness: a concrete converging run of the web Newton branch whose
returned `error` field is `None`. -/
theorem webNewton_error_none_witness :
    webNewton (fun x => x) (fun _ => (1 : ℚ)) 0 (1 / 1000000) 1 =
      .ok ⟨0, none, [⟨1, 0, 0, 0, 1, 0⟩]⟩ ∧
    (⟨0, none, [⟨1, 0, 0, 0, 1, 0⟩]⟩ : WebNewtonResult).error = none :=
  ⟨by norm_num [webNewton, webNewtonGo, index_prior_result],
   webNewton_error_none (fun x => x) (fun _ => 1) 0 (1 / 1000000) 1 _
     (by norm_num [webNewton, webNewtonGo, index_prior_result])⟩

/-! ## C4: bracket rejection -/

/-- Mid-loop failures of the regula-falsi loop are `ZeroDivisionError` or
`UnboundLocalError`, never the `ValueError` used for a bad bracket. -/
theorem regulaGo_error_not_valueError (f : ℚ → ℚ) (tol : ℚ) (maxIter : ℕ) :
    ∀ (fuel : ℕ) (a b fa fb c : ℚ) (fcOpt : Option ℚ) (logs : List BrRow)
      (e : PyErr) (L : List BrRow),
      regulaGo f tol maxIter fuel a b fa fb c fcOpt logs = .error (e, L) →
      ∀ m, e ≠ .valueError m := by
  intro fuel
  induction fuel with
  | zero =>
      intro a b fa fb c fcOpt logs e L h m
      cases fcOpt with
      | some fc => simp [regulaGo] at h
      | none =>
          simp only [regulaGo, Except.error.injEq, Prod.mk.injEq] at h
          rw [← h.1]
          simp
  | succ n ih =>
      intro a b fa fb c fcOpt logs e L h m
      by_cases hd : fb - fa = 0
      · simp only [regulaGo, hd, if_true, Except.error.injEq, Prod.mk.injEq] at h
        rw [← h.1]
        simp
      · simp only [regulaGo, hd, if_false] at h
        split at h
        · simp at h
        · split at h
          · exact ih _ _ _ _ _ _ _ _ _ h m
          · exact ih _ _ _ _ _ _ _ _ _ h m

/-- C4.  The bracketing methods raise their bracket `ValueError` exactly
when `f(a) * f(b) > 0`, they do so with the iteration log still empty (no
iteration has run), and when `f(a) * f(b) ≤ 0` no bracket error is ever
raised (bisection raises nothing at all; regula falsi can only raise its
mid-loop zero-division or unbound-local failures). -/
theorem bracket_error_iff (f : ℚ → ℚ) (a b tol : ℚ) (maxIter : ℕ) :
    (f a * f b > 0 →
      bisection f a b tol maxIter =
        .error (.valueError "Bisection requires f(a) and f(b) to have opposite signs.", []) ∧
      regula_falsi f a b tol maxIter =
        .error (.valueError "Regula Falsi requires f(a) and f(b) to have opposite signs.", [])) ∧
    (¬ f a * f b > 0 →
      (∀ exc, bisection f a b tol maxIter ≠ .error exc) ∧
      (∀ e L, regula_falsi f a b tol maxIter = .error (e, L) →
        ∀ m, e ≠ .valueError m)) := by
  constructor
  · intro h
    constructor
    · simp [bisection, h]
    · simp [regula_falsi, h]
  · intro h
    constructor
    · intro exc
      simp [bisection, h]
    · intro e L hrf m
      have : regulaGo f tol maxIter maxIter a b (f a) (f b) a none [] = .error (e, L) := by
        simpa [regula_falsi, h] using hrf
      exact regulaGo_error_not_valueError f tol maxIter _ _ _ _ _ _ _ _ _ _ this m

/-- C4, witness: on `f(x) = x` with bracket `[1, 2]` (product `2 > 0`) both
methods raise the bracket error with an empty log. -/
theorem bracket_error_iff_witness :
    bisection (fun x => x) 1 2 1 1 =
      .error (.valueError "Bisection requires f(a) and f(b) to have opposite signs.", []) ∧
    regula_falsi (fun x => x) 1 2 1 1 =
      .error (.valueError "Regula Falsi requires f(a) and f(b) to have opposite signs.", []) :=
  (bracket_error_iff (fun x => x) 1 2 1 1).1 (by norm_num)

/-! ## Bisection: loop invariants -/

/-- The convergence test of a bisection iteration:
`abs(fc) < tol or err < tol`. -/
def convB (tol : ℚ) (r : BrRow) : Prop := |r.fc| < tol ∨ r.err < tol

instance (tol : ℚ) (r : BrRow) : Decidable (convB tol r) := by
  unfold convB; infer_instance

/-- The facts true of every logged bisection row: the candidate is the
midpoint, the recorded error is the current half-width, and the recorded
function values are genuine values of `f`. -/
def BrRowOk (f : ℚ → ℚ) (r : BrRow) : Prop :=
  r.c = (r.a + r.b) / 2 ∧ r.err = |r.b - r.a| / 2 ∧
  r.fa = f r.a ∧ r.fb = f r.b ∧ r.fc = f r.c

/-- How the bracket `[a, b]` of the next iteration arises from a
non-converged row `r`: if `f(a)*f(c) < 0` the left endpoint is kept and
`b` is replaced by `c`; otherwise (including `f(a)*f(c) = 0`) the right
endpoint is kept and `a` is replaced by `c`. -/
def BrLink (r : BrRow) (a b : ℚ) : Prop :=
  (r.fa * r.fc < 0 → a = r.a ∧ b = r.c) ∧
  (¬ r.fa * r.fc < 0 → a = r.c ∧ b = r.b)

/-- The endpoint-replacement relation between consecutive logged rows. -/
def BrStep (r r' : BrRow) : Prop := BrLink r r'.a r'.b

/-- Distances from the midpoint to the endpoints are exactly half the
bracket width. -/
theorem half_width (ra rb rc : ℚ) (hc : rc = (ra + rb) / 2) :
    |rc - ra| = |rb - ra| / 2 ∧ |rb - rc| = |rb - ra| / 2 := by
  constructor
  · have h : rc - ra = (rb - ra) / 2 := by rw [hc]; ring
    rw [h, abs_div]
    norm_num
  · have h : rb - rc = (rb - ra) / 2 := by rw [hc]; ring
    rw [h, abs_div]
    norm_num

/-- Master invariant of the bisection loop: starting from a state whose
accumulated log satisfies the row facts, the result's log extends it and
the returned root, error and iteration count are determined by the final
row as the source computes them. -/
theorem bisectGo_spec (f : ℚ → ℚ) (tol : ℚ) (maxIter : ℕ) :
    ∀ (fuel : ℕ) (a b fa fb : ℚ) (logs : List BrRow)
      (root err : ℚ) (iters : ℕ) (L : List BrRow),
      fa = f a → fb = f b → logs.length + fuel = maxIter →
      (∀ r ∈ logs, BrRowOk f r ∧ ¬ convB tol r) →
      List.Chain' BrStep logs →
      (∀ rl, logs.getLast? = some rl → BrLink rl a b) →
      bisectGo f tol maxIter fuel a b fa fb logs = (root, err, iters, L) →
      logs <+: L ∧
      (∀ r ∈ L, BrRowOk f r) ∧
      List.Chain' BrStep L ∧
      iters = L.length ∧ iters ≤ maxIter ∧
      (∀ r ∈ L.dropLast, ¬ convB tol r) ∧
      (fuel ≠ 0 → L ≠ []) ∧
      (∀ rl, L.getLast? = some rl →
        (convB tol rl → root = rl.c ∧ err = rl.err) ∧
        (¬ convB tol rl → iters = maxIter ∧ err = rl.err / 2 ∧
          (rl.fa * rl.fc < 0 → root = (rl.a + rl.c) / 2) ∧
          (¬ rl.fa * rl.fc < 0 → root = (rl.c + rl.b) / 2))) ∧
      (iters < maxIter → ∃ rl, L.getLast? = some rl ∧ convB tol rl) := by
  intro fuel
  induction fuel with
  | zero =>
      intro a b fa fb logs root err iters L hfa hfb hlen hrows hchain hlink hres
      simp only [bisectGo, Prod.mk.injEq] at hres
      obtain ⟨rfl, rfl, rfl, rfl⟩ := hres
      refine ⟨List.prefix_refl _, fun r hr => (hrows r hr).1, hchain, by omega,
        le_refl _, fun r hr => (hrows r (List.mem_of_mem_dropLast hr)).2,
        fun h => absurd rfl h, ?_, ?_⟩
      · intro rl hrl
        have hmem := List.mem_of_mem_getLast? hrl
        refine ⟨fun hcv => absurd hcv (hrows rl hmem).2, fun _ => ⟨rfl, ?_, ?_, ?_⟩⟩
        · obtain ⟨hcm, herr, _, _, _⟩ := (hrows rl hmem).1
          by_cases hs : rl.fa * rl.fc < 0
          · obtain ⟨ha, hb⟩ := (hlink rl hrl).1 hs
            rw [ha, hb, (half_width rl.a rl.b rl.c hcm).1, herr]
          · obtain ⟨ha, hb⟩ := (hlink rl hrl).2 hs
            rw [ha, hb]
            have h1 : |rl.b - rl.c| = |rl.b - rl.a| / 2 :=
              (half_width rl.a rl.b rl.c ((hrows rl hmem).1).1).2
            rw [h1, herr]
        · intro hs
          obtain ⟨ha, hb⟩ := (hlink rl hrl).1 hs
          rw [ha, hb]
        · intro hs
          obtain ⟨ha, hb⟩ := (hlink rl hrl).2 hs
          rw [ha, hb]
      · intro hlt
        omega
  | succ n ih =>
      intro a b fa fb logs root err iters L hfa hfb hlen hrows hchain hlink hres
      simp only [bisectGo] at hres
      set c : ℚ := (a + b) / 2 with hc
      set fc : ℚ := f c with hfc
      set erri : ℚ := |b - a| / 2 with herri
      set row : BrRow := ⟨maxIter - n, a, b, c, fa, fb, fc, erri⟩ with hrow
      have hrowok : BrRowOk f row := ⟨rfl, rfl, hfa, hfb, rfl⟩
      have hrows' : ∀ hcv : ¬ (|fc| < tol ∨ erri < tol),
          ∀ r ∈ logs ++ [row], BrRowOk f r ∧ ¬ convB tol r := by
        intro hcv r hr
        rcases List.mem_append.mp hr with h | h
        · exact hrows r h
        · rcases List.mem_singleton.mp h with rfl
          exact ⟨hrowok, hcv⟩
      have hchain' : List.Chain' BrStep (logs ++ [row]) := by
        refine hchain.append (List.chain'_singleton row) ?_
        intro x hx y hy
        rcases List.mem_singleton.mp (by simpa using hy) with rfl
        exact hlink x hx
      have hlast' : (logs ++ [row]).getLast? = some row := List.getLast?_concat _
      by_cases hcv : |fc| < tol ∨ erri < tol
      · rw [if_pos hcv] at hres
        simp only [Prod.mk.injEq] at hres
        obtain ⟨rfl, rfl, rfl, rfl⟩ := hres
        have hlenL : (logs ++ [row]).length = logs.length + 1 := by simp
        refine ⟨List.prefix_append _ _, fun r hr => ?_, hchain', by omega,
          by omega, ?_, fun _ => by simp, ?_, ?_⟩
        · rcases List.mem_append.mp hr with h | h
          · exact (hrows r h).1
          · rcases List.mem_singleton.mp h with rfl
            exact hrowok
        · intro r hr
          rw [List.dropLast_concat] at hr
          exact (hrows r hr).2
        · intro rl hrl
          rw [hlast'] at hrl
          obtain rfl : rl = row := by injection hrl with h; exact h.symm
          exact ⟨fun _ => ⟨rfl, rfl⟩, fun hncv => absurd hcv hncv⟩
        · intro _
          exact ⟨row, hlast', hcv⟩
      · rw [if_neg hcv] at hres
        have hlen' : (logs ++ [row]).length + n = maxIter := by
          simp only [List.length_append, List.length_singleton]
          omega
        by_cases hs : fa * fc < 0
        · rw [if_pos hs] at hres
          have hlink' : ∀ rl, (logs ++ [row]).getLast? = some rl →
              BrLink rl a c := by
            intro rl hrl
            rw [hlast'] at hrl
            obtain rfl : rl = row := by injection hrl with h; exact h.symm
            exact ⟨fun _ => ⟨rfl, rfl⟩, fun hns => absurd hs hns⟩
          obtain ⟨hpre, hrowsL, hchainL, hiters, hitle, hdrop, hne, hlastC, hearly⟩ :=
            ih a c fa fc (logs ++ [row]) root err iters L hfa hfc hlen'
              (hrows' hcv) hchain' hlink' hres
          refine ⟨(List.prefix_append _ _).trans hpre, hrowsL, hchainL, hiters,
            hitle, hdrop, fun _ => ?_, hlastC, hearly⟩
          intro hL
          rw [hL] at hpre
          have := List.prefix_nil.mp hpre
          simp at this
        · rw [if_neg hs] at hres
          have hlink' : ∀ rl, (logs ++ [row]).getLast? = some rl →
              BrLink rl c b := by
            intro rl hrl
            rw [hlast'] at hrl
            obtain rfl : rl = row := by injection hrl with h; exact h.symm
            exact ⟨fun hs' => absurd hs' hs, fun _ => ⟨rfl, rfl⟩⟩
          obtain ⟨hpre, hrowsL, hchainL, hiters, hitle, hdrop, hne, hlastC, hearly⟩ :=
            ih c b fc fb (logs ++ [row]) root err iters L hfc hfb hlen'
              (hrows' hcv) hchain' hlink' hres
          refine ⟨(List.prefix_append _ _).trans hpre, hrowsL, hchainL, hiters,
            hitle, hdrop, fun _ => ?_, hlastC, hearly⟩
          intro hL
          rw [hL] at hpre
          have := List.prefix_nil.mp hpre
          simp at this

/-- Specialisation of `bisectGo_spec` to a successful top-level
`bisection` call. -/
theorem bisection_ok_spec (f : ℚ → ℚ) (a b tol : ℚ) (maxIter : ℕ)
    (root err : ℚ) (iters : ℕ) (L : List BrRow)
    (h : bisection f a b tol maxIter = .ok (root, err, iters, L)) :
    (∀ r ∈ L, BrRowOk f r) ∧
    List.Chain' BrStep L ∧
    iters = L.length ∧ iters ≤ maxIter ∧
    (∀ r ∈ L.dropLast, ¬ convB tol r) ∧
    (maxIter ≠ 0 → L ≠ []) ∧
    (∀ rl, L.getLast? = some rl →
      (convB tol rl → root = rl.c ∧ err = rl.err) ∧
      (¬ convB tol rl → iters = maxIter ∧ err = rl.err / 2 ∧
        (rl.fa * rl.fc < 0 → root = (rl.a + rl.c) / 2) ∧
        (¬ rl.fa * rl.fc < 0 → root = (rl.c + rl.b) / 2))) ∧
    (iters < maxIter → ∃ rl, L.getLast? = some rl ∧ convB tol rl) := by
  simp only [bisection] at h
  by_cases hbr : f a * f b > 0
  · rw [if_pos hbr] at h
    cases h
  · rw [if_neg hbr] at h
    injection h with h
    obtain ⟨_, h2, h3, h4, h5, h6, h7, h8, h9⟩ :=
      bisectGo_spec f tol maxIter maxIter a b (f a) (f b) [] root err iters L
        rfl rfl (by simp) (by simp) List.chain'_nil (by simp) h
    exact ⟨h2, h3, h4, h5, h6, h7, h8, h9⟩

/-- C7.  In every bisection iteration the candidate is the midpoint
`c = (a+b)/2` and the recorded error is `err = |b-a|/2`; the run returns
the logged `c`, `err` and current index exactly when
`|f(c)| < tol ∨ err < tol` holds at that row (earlier rows never satisfy
it, and an early return implies the final row satisfies it); otherwise the
bracket is replaced per the sign tie-break: `f(a)*f(c) < 0` keeps `a`
(replacing `b` by `c`), anything else — including `f(a)*f(c) = 0` — keeps
`b` (replacing `a` by `c`). -/
theorem bisection_step_semantics (f : ℚ → ℚ) (a b tol : ℚ) (maxIter : ℕ)
    (root err : ℚ) (iters : ℕ) (L : List BrRow)
    (h : bisection f a b tol maxIter = .ok (root, err, iters, L)) :
    (∀ r ∈ L, r.c = (r.a + r.b) / 2 ∧ r.err = |r.b - r.a| / 2 ∧
      r.fa = f r.a ∧ r.fb = f r.b ∧ r.fc = f r.c) ∧
    (∀ r ∈ L.dropLast, ¬ (|r.fc| < tol ∨ r.err < tol)) ∧
    (∀ rl, L.getLast? = some rl → (|rl.fc| < tol ∨ rl.err < tol) →
      root = rl.c ∧ err = rl.err ∧ iters = L.length) ∧
    (iters < maxIter →
      ∃ rl, L.getLast? = some rl ∧ (|rl.fc| < tol ∨ rl.err < tol)) ∧
    List.Chain' (fun r r' =>
      (r.fa * r.fc < 0 → r'.a = r.a ∧ r'.b = r.c) ∧
      (¬ r.fa * r.fc < 0 → r'.a = r.c ∧ r'.b = r.b)) L := by
  obtain ⟨h2, h3, h4, _, h6, _, h8, h9⟩ := bisection_ok_spec f a b tol maxIter
    root err iters L h
  exact ⟨h2, h6, fun rl hrl hcv =>
    ⟨((h8 rl hrl).1 hcv).1, ((h8 rl hrl).1 hcv).2, h4⟩, h9, h3⟩

/-- C7, witness: a one-iteration converging run of bisection on
`f(x) = x` over `[-1, 2]` with tolerance `1`. -/
theorem bisection_step_semantics_witness :
    (∀ r ∈ ([⟨1, -1, 2, 1/2, -1, 2, 1/2, 3/2⟩] : List BrRow),
      r.c = (r.a + r.b) / 2 ∧ r.err = |r.b - r.a| / 2 ∧
      r.fa = (fun x : ℚ => x) r.a ∧ r.fb = (fun x : ℚ => x) r.b ∧
      r.fc = (fun x : ℚ => x) r.c) ∧
    (∀ r ∈ ([⟨1, -1, 2, 1/2, -1, 2, 1/2, 3/2⟩] : List BrRow).dropLast,
      ¬ (|r.fc| < 1 ∨ r.err < 1)) ∧
    (∀ rl, ([⟨1, -1, 2, 1/2, -1, 2, 1/2, 3/2⟩] : List BrRow).getLast? = some rl →
      (|rl.fc| < 1 ∨ rl.err < 1) →
      (1 : ℚ)/2 = rl.c ∧ (3 : ℚ)/2 = rl.err ∧
      1 = ([⟨1, -1, 2, 1/2, -1, 2, 1/2, 3/2⟩] : List BrRow).length) ∧
    (1 < 1 →
      ∃ rl, ([⟨1, -1, 2, 1/2, -1, 2, 1/2, 3/2⟩] : List BrRow).getLast? = some rl ∧
        (|rl.fc| < 1 ∨ rl.err < 1)) ∧
    List.Chain' (fun r r' =>
      (r.fa * r.fc < 0 → r'.a = r.a ∧ r'.b = r.c) ∧
      (¬ r.fa * r.fc < 0 → r'.a = r.c ∧ r'.b = r.b))
      ([⟨1, -1, 2, 1/2, -1, 2, 1/2, 3/2⟩] : List BrRow) :=
  bisection_step_semantics (fun x => x) (-1) 2 1 1 (1/2) (3/2) 1
    [⟨1, -1, 2, 1/2, -1, 2, 1/2, 3/2⟩] (by norm_num [bisection, bisectGo, abs_of_nonneg, abs_of_nonpos])

/-- A chain relation can be replaced by any relation it implies on the
list's members. -/
theorem chain_imp_of_mem {α : Type} {R S : α → α → Prop} :
    ∀ (l : List α), (∀ x ∈ l, ∀ y ∈ l, R x y → S x y) →
      List.Chain' R l → List.Chain' S l := by
  intro l
  induction l with
  | nil => intro _ _; exact List.chain'_nil
  | cons a t ih =>
      intro h hc
      cases t with
      | nil => simp
      | cons b t2 =>
          rw [List.chain'_cons] at hc ⊢
          refine ⟨h a (by simp) b (by simp) hc.1, ih ?_ hc.2⟩
          intro x hx y hy hr
          exact h x (by simp [hx]) y (by simp [hy]) hr

/-- C8.  On a valid bracket (`f(a)*f(b) ≤ 0`) bisection returns normally,
and along its log the recorded half-width is exactly halved from each
iteration to the next while the bracket width never increases. -/
theorem bisection_halving (f : ℚ → ℚ) (a b tol : ℚ) (maxIter : ℕ)
    (hbr : f a * f b ≤ 0) :
    ∃ root err iters L,
      bisection f a b tol maxIter = .ok (root, err, iters, L) ∧
      List.Chain' (fun r r' : BrRow =>
        r'.err = r.err / 2 ∧ |r'.b - r'.a| ≤ |r.b - r.a|) L := by
  have hno : ¬ f a * f b > 0 := not_lt.mpr hbr
  rcases hgo : bisectGo f tol maxIter maxIter a b (f a) (f b) [] with
    ⟨root, err2, iters, L⟩
  have hok : bisection f a b tol maxIter = .ok (root, err2, iters, L) := by
    simp only [bisection, if_neg hno, hgo]
  refine ⟨root, err2, iters, L, hok, ?_⟩
  obtain ⟨h2, h3, _, _, _, _, _, _⟩ := bisection_ok_spec f a b tol maxIter
    root err2 iters L hok
  refine chain_imp_of_mem L ?_ h3
  intro r hr r' hr' hrel
  have okr := h2 r hr
  have okr' := h2 r' hr'
  by_cases hs : r.fa * r.fc < 0
  · obtain ⟨ha, hb⟩ := hrel.1 hs
    have hw : |r'.b - r'.a| = |r.b - r.a| / 2 := by
      rw [ha, hb]
      exact (half_width r.a r.b r.c okr.1).1
    constructor
    · rw [okr'.2.1, hw, okr.2.1]
    · rw [hw]
      linarith [abs_nonneg (r.b - r.a)]
  · obtain ⟨ha, hb⟩ := hrel.2 hs
    have hw : |r'.b - r'.a| = |r.b - r.a| / 2 := by
      rw [ha, hb]
      exact (half_width r.a r.b r.c okr.1).2
    constructor
    · rw [okr'.2.1, hw, okr.2.1]
    · rw [hw]
      linarith [abs_nonneg (r.b - r.a)]

/-- C8, witness: two non-converging iterations of bisection on `f(x) = x`
over `[-1, 2]` with tolerance `1/10`, whose logged errors halve. -/
theorem bisection_halving_witness :
    ∃ root err iters L,
      bisection (fun x : ℚ => x) (-1) 2 (1/10) 2 = .ok (root, err, iters, L) ∧
      List.Chain' (fun r r' : BrRow =>
        r'.err = r.err / 2 ∧ |r'.b - r'.a| ≤ |r.b - r.a|) L :=
  bisection_halving (fun x => x) (-1) 2 (1/10) 2 (by norm_num)

/-- C2, counterexample.  With `f(x) = x`, bracket `[-1, 2]`,
tolerance `1/10` and `max_iterations = 1`, the single iteration logs the
midpoint `1/2` and half-width `3/2`, yet the exhausted run returns root
`-1/4` and error `3/4`: the returned values are not the last logged
midpoint and half-width. -/
theorem bisection_exhaustion_counterexample :
    bisection (fun x : ℚ => x) (-1) 2 (1/10) 1 =
      .ok (-1/4, 3/4, 1, [⟨1, -1, 2, 1/2, -1, 2, 1/2, 3/2⟩]) ∧
    (-1/4 : ℚ) ≠ 1/2 ∧ (3/4 : ℚ) ≠ 3/2 := by
  refine ⟨by norm_num [bisection, bisectGo, abs_of_nonneg, abs_of_nonpos], by norm_num, by norm_num⟩

/-- C2, amended.  When bisection exhausts `max_iterations` with the last
logged row failing the convergence test, it returns `iterations_used =
max_iterations` and no error, but the returned midpoint belongs to the
bracket as updated *after* the last logged iteration — `(a+c)/2` or
`(c+b)/2` of the last row according to the sign test — and the returned
half-width is half the last logged half-width, not the logged values
themselves. -/
theorem bisection_exhaustion (f : ℚ → ℚ) (a b tol : ℚ) (maxIter : ℕ)
    (root err : ℚ) (iters : ℕ) (L : List BrRow) (rl : BrRow)
    (h : bisection f a b tol maxIter = .ok (root, err, iters, L))
    (hrl : L.getLast? = some rl)
    (hnc : ¬ (|rl.fc| < tol ∨ rl.err < tol)) :
    iters = maxIter ∧ err = rl.err / 2 ∧
    (rl.fa * rl.fc < 0 → root = (rl.a + rl.c) / 2) ∧
    (¬ rl.fa * rl.fc < 0 → root = (rl.c + rl.b) / 2) := by
  obtain ⟨_, _, _, _, _, _, h8, _⟩ := bisection_ok_spec f a b tol maxIter
    root err iters L h
  exact (h8 rl hrl).2 hnc

/-- C2, witness for the amended theorem, at the counterexample's input. -/
theorem bisection_exhaustion_witness :
    1 = 1 ∧ (3/4 : ℚ) = (3/2) / 2 ∧
    ((-1 : ℚ) * (1/2) < 0 → (-1/4 : ℚ) = (-1 + 1/2) / 2) ∧
    (¬ ((-1 : ℚ) * (1/2) < 0) → (-1/4 : ℚ) = (1/2 + 2) / 2) :=
  bisection_exhaustion (fun x => x) (-1) 2 (1/10) 1 (-1/4) (3/4) 1
    [⟨1, -1, 2, 1/2, -1, 2, 1/2, 3/2⟩] ⟨1, -1, 2, 1/2, -1, 2, 1/2, 3/2⟩
    (by norm_num [bisection, bisectGo, abs_of_nonneg, abs_of_nonpos]) rfl (by norm_num [abs_of_nonneg])

/-! ## Regula falsi: loop invariants -/

/-- The facts true of every logged regula-falsi row: the candidate is the
secant-through-bracket point, the recorded error is `|f(c)|`, and the
recorded function values are genuine values of `f`. -/
def RfRowOk (f : ℚ → ℚ) (r : BrRow) : Prop :=
  r.fb - r.fa ≠ 0 ∧ r.c = (r.a * r.fb - r.b * r.fa) / (r.fb - r.fa) ∧
  r.err = |r.fc| ∧ r.fa = f r.a ∧ r.fb = f r.b ∧ r.fc = f r.c

/-- Master invariant of the regula-falsi loop on successful runs. -/
theorem regulaGo_ok_spec (f : ℚ → ℚ) (tol : ℚ) (maxIter : ℕ) :
    ∀ (fuel : ℕ) (a b fa fb c0 : ℚ) (fcOpt : Option ℚ) (logs : List BrRow)
      (root err : ℚ) (iters : ℕ) (L : List BrRow),
      fa = f a → fb = f b → logs.length + fuel = maxIter →
      (∀ r ∈ logs, RfRowOk f r ∧ ¬ |r.fc| < tol) →
      (∀ rl, logs.getLast? = some rl → c0 = rl.c ∧ fcOpt = some rl.fc) →
      regulaGo f tol maxIter fuel a b fa fb c0 fcOpt logs =
        .ok (root, err, iters, L) →
      logs <+: L ∧
      (∀ r ∈ L, RfRowOk f r) ∧
      iters = L.length ∧ iters ≤ maxIter ∧
      (∀ r ∈ L.dropLast, ¬ |r.fc| < tol) ∧
      (fuel ≠ 0 → L ≠ []) ∧
      (∀ rl, L.getLast? = some rl →
        root = rl.c ∧ err = |rl.fc| ∧ (¬ |rl.fc| < tol → iters = maxIter)) ∧
      (iters < maxIter → ∃ rl, L.getLast? = some rl ∧ |rl.fc| < tol) := by
  intro fuel
  induction fuel with
  | zero =>
      intro a b fa fb c0 fcOpt logs root err iters L hfa hfb hlen hrows hcarry hres
      cases fcOpt with
      | none => simp [regulaGo] at hres
      | some fc0 =>
          simp only [regulaGo, Except.ok.injEq, Prod.mk.injEq] at hres
          obtain ⟨rfl, rfl, rfl, rfl⟩ := hres
          refine ⟨List.prefix_refl _, fun r hr => (hrows r hr).1, by omega,
            le_refl _, fun r hr => (hrows r (List.mem_of_mem_dropLast hr)).2,
            fun h => absurd rfl h, ?_, fun hlt => absurd hlt (lt_irrefl _)⟩
          intro rl hrl
          obtain ⟨hcse, hfse⟩ := hcarry rl hrl
          obtain rfl : fc0 = rl.fc := by injection hfse
          exact ⟨hcse, rfl, fun _ => rfl⟩
  | succ n ih =>
      intro a b fa fb c0 fcOpt logs root err iters L hfa hfb hlen hrows hcarry hres
      simp only [regulaGo] at hres
      by_cases hd : fb - fa = 0
      · rw [if_pos hd] at hres
        cases hres
      · rw [if_neg hd] at hres
        set c : ℚ := (a * fb - b * fa) / (fb - fa) with hc
        set fc : ℚ := f c with hfc
        set row : BrRow := ⟨maxIter - n, a, b, c, fa, fb, fc, |fc|⟩ with hrow
        have hrowok : RfRowOk f row := ⟨hd, rfl, rfl, hfa, hfb, rfl⟩
        have hlast' : (logs ++ [row]).getLast? = some row := List.getLast?_concat _
        by_cases hcv : |fc| < tol
        · rw [if_pos hcv] at hres
          simp only [Except.ok.injEq, Prod.mk.injEq] at hres
          obtain ⟨rfl, rfl, rfl, rfl⟩ := hres
          refine ⟨List.prefix_append _ _, fun r hr => ?_, by simp; omega,
            by omega, ?_, fun _ => by simp, ?_, fun _ => ⟨row, hlast', hcv⟩⟩
          · rcases List.mem_append.mp hr with h | h
            · exact (hrows r h).1
            · rcases List.mem_singleton.mp h with rfl
              exact hrowok
          · intro r hr
            rw [List.dropLast_concat] at hr
            exact (hrows r hr).2
          · intro rl hrl
            rw [hlast'] at hrl
            obtain rfl : rl = row := by injection hrl with h; exact h.symm
            exact ⟨rfl, rfl, fun hncv => absurd hcv hncv⟩
        · rw [if_neg hcv] at hres
          have hrows' : ∀ r ∈ logs ++ [row], RfRowOk f r ∧ ¬ |r.fc| < tol := by
            intro r hr
            rcases List.mem_append.mp hr with h | h
            · exact hrows r h
            · rcases List.mem_singleton.mp h with rfl
              exact ⟨hrowok, hcv⟩
          have hcarry' : ∀ rl, (logs ++ [row]).getLast? = some rl →
              c = rl.c ∧ (some fc : Option ℚ) = some rl.fc := by
            intro rl hrl
            rw [hlast'] at hrl
            obtain rfl : rl = row := by injection hrl with h; exact h.symm
            exact ⟨rfl, rfl⟩
          have hlen' : (logs ++ [row]).length + n = maxIter := by
            simp only [List.length_append, List.length_singleton]
            omega
          by_cases hs : fa * fc < 0
          · rw [if_pos hs] at hres
            obtain ⟨hpre, hrowsL, hiters, hitle, hdrop, hne, hlastC, hearly⟩ :=
              ih a c fa fc c (some fc) (logs ++ [row]) root err iters L hfa hfc
                hlen' hrows' hcarry' hres
            refine ⟨(List.prefix_append _ _).trans hpre, hrowsL, hiters, hitle,
              hdrop, fun _ hL => ?_, hlastC, hearly⟩
            rw [hL] at hpre
            have := List.prefix_nil.mp hpre
            simp at this
          · rw [if_neg hs] at hres
            obtain ⟨hpre, hrowsL, hiters, hitle, hdrop, hne, hlastC, hearly⟩ :=
              ih c b fc fb c (some fc) (logs ++ [row]) root err iters L hfc hfb
                hlen' hrows' hcarry' hres
            refine ⟨(List.prefix_append _ _).trans hpre, hrowsL, hiters, hitle,
              hdrop, fun _ hL => ?_, hlastC, hearly⟩
            rw [hL] at hpre
            have := List.prefix_nil.mp hpre
            simp at this

/-- C9.  In every regula-falsi iteration the candidate is
`c = (a*f(b) - b*f(a)) / (f(b) - f(a))`, and the only convergence test is
`|f(c)| < tol`: every non-final logged row fails it whatever the bracket
width is (so the loop never returns early on a narrow bracket alone), an
early return implies the last row passes it, and the returned root and
error are the last row's `c` and `|f(c)|`. -/
theorem regula_falsi_step_semantics (f : ℚ → ℚ) (a b tol : ℚ) (maxIter : ℕ)
    (root err : ℚ) (iters : ℕ) (L : List BrRow)
    (h : regula_falsi f a b tol maxIter = .ok (root, err, iters, L)) :
    (∀ r ∈ L, r.fb - r.fa ≠ 0 ∧
      r.c = (r.a * r.fb - r.b * r.fa) / (r.fb - r.fa) ∧ r.err = |r.fc| ∧
      r.fa = f r.a ∧ r.fb = f r.b ∧ r.fc = f r.c) ∧
    (∀ r ∈ L.dropLast, ¬ |r.fc| < tol) ∧
    (∀ rl, L.getLast? = some rl →
      root = rl.c ∧ err = |rl.fc| ∧ (¬ |rl.fc| < tol → iters = maxIter)) ∧
    (iters < maxIter → ∃ rl, L.getLast? = some rl ∧ |rl.fc| < tol) := by
  simp only [regula_falsi] at h
  by_cases hbr : f a * f b > 0
  · rw [if_pos hbr] at h
    cases h
  · rw [if_neg hbr] at h
    obtain ⟨_, h2, _, _, h5, _, h7, h8⟩ :=
      regulaGo_ok_spec f tol maxIter maxIter a b (f a) (f b) a none []
        root err iters L rfl rfl (by simp) (by simp) (by simp) h
    exact ⟨h2, h5, h7, h8⟩

/-- C9, witness: a one-iteration converging run of regula falsi on
`f(x) = x` over `[-1, 2]` (the weighted point is the root `0` itself). -/
theorem regula_falsi_step_semantics_witness :
    (∀ r ∈ ([⟨1, -1, 2, 0, -1, 2, 0, 0⟩] : List BrRow), r.fb - r.fa ≠ 0 ∧
      r.c = (r.a * r.fb - r.b * r.fa) / (r.fb - r.fa) ∧ r.err = |r.fc| ∧
      r.fa = (fun x : ℚ => x) r.a ∧ r.fb = (fun x : ℚ => x) r.b ∧
      r.fc = (fun x : ℚ => x) r.c) ∧
    (∀ r ∈ ([⟨1, -1, 2, 0, -1, 2, 0, 0⟩] : List BrRow).dropLast,
      ¬ |r.fc| < 1) ∧
    (∀ rl, ([⟨1, -1, 2, 0, -1, 2, 0, 0⟩] : List BrRow).getLast? = some rl →
      (0 : ℚ) = rl.c ∧ (0 : ℚ) = |rl.fc| ∧ (¬ |rl.fc| < 1 → 1 = 1)) ∧
    (1 < 1 → ∃ rl, ([⟨1, -1, 2, 0, -1, 2, 0, 0⟩] : List BrRow).getLast? = some rl ∧
      |rl.fc| < 1) :=
  regula_falsi_step_semantics (fun x => x) (-1) 2 1 1 0 0 1
    [⟨1, -1, 2, 0, -1, 2, 0, 0⟩]
    (by norm_num [regula_falsi, regulaGo, abs_of_nonneg, abs_of_nonpos])

/-! ## Iteration budget and log length, all six methods -/

/-- Length invariant of the secant loop. -/
theorem secantGo_len (f : ℚ → ℚ) (tol : ℚ) (maxIter : ℕ) :
    ∀ (fuel : ℕ) (x0 x1 : ℚ) (logs : List SecRow) (root err : ℚ)
      (iters : ℕ) (L : List SecRow),
      logs.length + fuel = maxIter →
      secantGo f tol maxIter fuel x0 x1 logs = .ok (root, err, iters, L) →
      iters = L.length ∧ iters ≤ maxIter ∧ (iters = maxIter ∨ 1 ≤ iters) := by
  intro fuel
  induction fuel with
  | zero =>
      intro x0 x1 logs root err iters L hlen hres
      simp only [secantGo, Except.ok.injEq, Prod.mk.injEq] at hres
      obtain ⟨rfl, rfl, rfl, rfl⟩ := hres
      exact ⟨by omega, le_refl _, Or.inl rfl⟩
  | succ n ih =>
      intro x0 x1 logs root err iters L hlen hres
      simp only [secantGo] at hres
      split at hres
      · cases hres
      · split at hres
        · simp only [Except.ok.injEq, Prod.mk.injEq] at hres
          obtain ⟨rfl, rfl, rfl, rfl⟩ := hres
          refine ⟨?_, by omega, Or.inr (by omega)⟩
          simp only [List.length_append, List.length_singleton]
          omega
        · have := ih _ _ _ root err iters L
            (by simp only [List.length_append, List.length_singleton]; omega) hres
          exact ⟨this.1, this.2.1, this.2.2⟩

/-- Length invariant of the Newton-Raphson loop. -/
theorem newtonGo_len (f df : ℚ → ℚ) (tol : ℚ) (maxIter : ℕ) :
    ∀ (fuel : ℕ) (x : ℚ) (errOpt : Option ℚ) (logs : List NRow)
      (root err : ℚ) (iters : ℕ) (L : List NRow),
      logs.length + fuel = maxIter →
      newtonGo f df tol maxIter fuel x errOpt logs = .ok (root, err, iters, L) →
      iters = L.length ∧ iters ≤ maxIter ∧ (iters = maxIter ∨ 1 ≤ iters) := by
  intro fuel
  induction fuel with
  | zero =>
      intro x errOpt logs root err iters L hlen hres
      cases errOpt with
      | none => simp [newtonGo] at hres
      | some e0 =>
          simp only [newtonGo, Except.ok.injEq, Prod.mk.injEq] at hres
          obtain ⟨rfl, rfl, rfl, rfl⟩ := hres
          exact ⟨by omega, le_refl _, Or.inl rfl⟩
  | succ n ih =>
      intro x errOpt logs root err iters L hlen hres
      simp only [newtonGo] at hres
      split at hres
      · cases hres
      · split at hres
        · simp only [Except.ok.injEq, Prod.mk.injEq] at hres
          obtain ⟨rfl, rfl, rfl, rfl⟩ := hres
          refine ⟨?_, by omega, Or.inr (by omega)⟩
          simp only [List.length_append, List.length_singleton]
          omega
        · have := ih _ _ _ root err iters L
            (by simp only [List.length_append, List.length_singleton]; omega) hres
          exact ⟨this.1, this.2.1, this.2.2⟩

/-- Length invariant of the fixed-point loop. -/
theorem fixedGo_len (g : ℚ → ℚ) (tol : ℚ) (maxIter : ℕ) :
    ∀ (fuel : ℕ) (x : ℚ) (errOpt : Option ℚ) (logs : List FpRow)
      (root err : ℚ) (iters : ℕ) (L : List FpRow),
      logs.length + fuel = maxIter →
      fixedGo g tol maxIter fuel x errOpt logs = .ok (root, err, iters, L) →
      iters = L.length ∧ iters ≤ maxIter ∧ (iters = maxIter ∨ 1 ≤ iters) := by
  intro fuel
  induction fuel with
  | zero =>
      intro x errOpt logs root err iters L hlen hres
      cases errOpt with
      | none => simp [fixedGo] at hres
      | some e0 =>
          simp only [fixedGo, Except.ok.injEq, Prod.mk.injEq] at hres
          obtain ⟨rfl, rfl, rfl, rfl⟩ := hres
          exact ⟨by omega, le_refl _, Or.inl rfl⟩
  | succ n ih =>
      intro x errOpt logs root err iters L hlen hres
      simp only [fixedGo] at hres
      split at hres
      · simp only [Except.ok.injEq, Prod.mk.injEq] at hres
        obtain ⟨rfl, rfl, rfl, rfl⟩ := hres
        refine ⟨?_, by omega, Or.inr (by omega)⟩
        simp only [List.length_append, List.length_singleton]
        omega
      · have := ih _ _ _ root err iters L
          (by simp only [List.length_append, List.length_singleton]; omega) hres
        exact ⟨this.1, this.2.1, this.2.2⟩

/-- Length invariant of the modified-secant loop. -/
theorem modSecGo_len (f : ℚ → ℚ) (delta tol : ℚ) (maxIter : ℕ) :
    ∀ (fuel : ℕ) (x : ℚ) (errOpt : Option ℚ) (logs : List MsRow)
      (root err : ℚ) (iters : ℕ) (L : List MsRow),
      logs.length + fuel = maxIter →
      modSecGo f delta tol maxIter fuel x errOpt logs = .ok (root, err, iters, L) →
      iters = L.length ∧ iters ≤ maxIter ∧ (iters = maxIter ∨ 1 ≤ iters) := by
  intro fuel
  induction fuel with
  | zero =>
      intro x errOpt logs root err iters L hlen hres
      cases errOpt with
      | none => simp [modSecGo] at hres
      | some e0 =>
          simp only [modSecGo, Except.ok.injEq, Prod.mk.injEq] at hres
          obtain ⟨rfl, rfl, rfl, rfl⟩ := hres
          exact ⟨by omega, le_refl _, Or.inl rfl⟩
  | succ n ih =>
      intro x errOpt logs root err iters L hlen hres
      simp only [modSecGo] at hres
      split at hres
      · cases hres
      · split at hres
        · simp only [Except.ok.injEq, Prod.mk.injEq] at hres
          obtain ⟨rfl, rfl, rfl, rfl⟩ := hres
          refine ⟨?_, by omega, Or.inr (by omega)⟩
          simp only [List.length_append, List.length_singleton]
          omega
        · have := ih _ _ _ root err iters L
            (by simp only [List.length_append, List.length_singleton]; omega) hres
          exact ⟨this.1, this.2.1, this.2.2⟩

/-- C5.  For every method and every returned result with
`max_iterations ≥ 1`: the loops are structural recursion on `max_iter`
fuel (so they terminate within `max_iterations` steps by construction),
`1 ≤ iterations_used ≤ max_iterations`, and the log length equals
`iterations_used`. -/
theorem all_methods_iteration_budget (maxIter : ℕ) (hmi : 1 ≤ maxIter) :
    (∀ (f : ℚ → ℚ) (a b tol root err : ℚ) (iters : ℕ) (L : List BrRow),
      bisection f a b tol maxIter = .ok (root, err, iters, L) →
      1 ≤ iters ∧ iters ≤ maxIter ∧ L.length = iters) ∧
    (∀ (f : ℚ → ℚ) (a b tol root err : ℚ) (iters : ℕ) (L : List BrRow),
      regula_falsi f a b tol maxIter = .ok (root, err, iters, L) →
      1 ≤ iters ∧ iters ≤ maxIter ∧ L.length = iters) ∧
    (∀ (f : ℚ → ℚ) (x0 x1 tol root err : ℚ) (iters : ℕ) (L : List SecRow),
      secant f x0 x1 tol maxIter = .ok (root, err, iters, L) →
      1 ≤ iters ∧ iters ≤ maxIter ∧ L.length = iters) ∧
    (∀ (f df : ℚ → ℚ) (x0 tol root err : ℚ) (iters : ℕ) (L : List NRow),
      newton_raphson f df x0 tol maxIter = .ok (root, err, iters, L) →
      1 ≤ iters ∧ iters ≤ maxIter ∧ L.length = iters) ∧
    (∀ (g : ℚ → ℚ) (x0 tol root err : ℚ) (iters : ℕ) (L : List FpRow),
      fixed_point g x0 tol maxIter = .ok (root, err, iters, L) →
      1 ≤ iters ∧ iters ≤ maxIter ∧ L.length = iters) ∧
    (∀ (f : ℚ → ℚ) (x0 delta tol root err : ℚ) (iters : ℕ) (L : List MsRow),
      modified_secant f x0 delta tol maxIter = .ok (root, err, iters, L) →
      1 ≤ iters ∧ iters ≤ maxIter ∧ L.length = iters) := by
  refine ⟨?_, ?_, ?_, ?_, ?_, ?_⟩
  · intro f a b tol root err iters L h
    obtain ⟨_, _, h4, h5, _, h7, _, _⟩ := bisection_ok_spec f a b tol maxIter
      root err iters L h
    have hL := h7 (by omega)
    have : 0 < L.length := List.length_pos.mpr hL
    exact ⟨by omega, h5, h4.symm⟩
  · intro f a b tol root err iters L h
    simp only [regula_falsi] at h
    by_cases hbr : f a * f b > 0
    · rw [if_pos hbr] at h
      cases h
    · rw [if_neg hbr] at h
      obtain ⟨_, _, h3, h4, _, h6, _, _⟩ :=
        regulaGo_ok_spec f tol maxIter maxIter a b (f a) (f b) a none []
          root err iters L rfl rfl (by simp) (by simp) (by simp) h
      have hL := h6 (by omega)
      have : 0 < L.length := List.length_pos.mpr hL
      exact ⟨by omega, h4, h3.symm⟩
  · intro f x0 x1 tol root err iters L h
    obtain ⟨h1, h2, h3⟩ := secantGo_len f tol maxIter maxIter x0 x1 []
      root err iters L (by simp) h
    exact ⟨by omega, h2, h1.symm⟩
  · intro f df x0 tol root err iters L h
    obtain ⟨h1, h2, h3⟩ := newtonGo_len f df tol maxIter maxIter x0 none []
      root err iters L (by simp) h
    exact ⟨by omega, h2, h1.symm⟩
  · intro g x0 tol root err iters L h
    obtain ⟨h1, h2, h3⟩ := fixedGo_len g tol maxIter maxIter x0 none []
      root err iters L (by simp) h
    exact ⟨by omega, h2, h1.symm⟩
  · intro f x0 delta tol root err iters L h
    obtain ⟨h1, h2, h3⟩ := modSecGo_len f delta tol maxIter maxIter x0 none []
      root err iters L (by simp) h
    exact ⟨by omega, h2, h1.symm⟩

/-- C5, witness: one concrete returning run per method with
`max_iterations = 1`. -/
theorem all_methods_iteration_budget_witness :
    (1 ≤ 1 ∧ 1 ≤ 1 ∧
      ([⟨1, -1, 2, 1/2, -1, 2, 1/2, 3/2⟩] : List BrRow).length = 1) ∧
    (1 ≤ 1 ∧ 1 ≤ 1 ∧ ([⟨1, -1, 2, 0, -1, 2, 0, 0⟩] : List BrRow).length = 1) ∧
    (1 ≤ 1 ∧ 1 ≤ 1 ∧ ([⟨1, 0, 1, 0, 0, 1, 1⟩] : List SecRow).length = 1) ∧
    (1 ≤ 1 ∧ 1 ≤ 1 ∧ ([⟨1, 0, 0, 0, 1, 0⟩] : List NRow).length = 1) ∧
    (1 ≤ 1 ∧ 1 ≤ 1 ∧ ([⟨1, 0, 0, 0⟩] : List FpRow).length = 1) ∧
    (1 ≤ 1 ∧ 1 ≤ 1 ∧ ([⟨1, 1, 0, 1, 1⟩] : List MsRow).length = 1) :=
  ⟨(all_methods_iteration_budget 1 (by norm_num)).1 (fun x => x) (-1) 2 1
      (1/2) (3/2) 1 _
      (by norm_num [bisection, bisectGo, abs_of_nonneg, abs_of_nonpos]),
   (all_methods_iteration_budget 1 (by norm_num)).2.1 (fun x => x) (-1) 2 1
      0 0 1 _
      (by norm_num [regula_falsi, regulaGo, abs_of_nonneg, abs_of_nonpos]),
   (all_methods_iteration_budget 1 (by norm_num)).2.2.1 (fun x => x) 0 1 2
      0 1 1 _
      (by norm_num [secant, secantGo, abs_of_nonneg, abs_of_nonpos]),
   (all_methods_iteration_budget 1 (by norm_num)).2.2.2.1 (fun x => x)
      (fun _ => 1) 0 1 0 0 1 _
      (by norm_num [newton_raphson, newtonGo, abs_of_nonneg, abs_of_nonpos]),
   (all_methods_iteration_budget 1 (by norm_num)).2.2.2.2.1 (fun x => x) 0 1
      0 0 1 _
      (by norm_num [fixed_point, fixedGo, abs_of_nonneg, abs_of_nonpos]),
   (all_methods_iteration_budget 1 (by norm_num)).2.2.2.2.2 (fun x => x) 1 1 2
      0 1 1 _
      (by norm_num [modified_secant, modSecGo, abs_of_nonneg, abs_of_nonpos])⟩

/-! ## Newton-Raphson: zero-derivative characterisation -/

/-- The Newton update `x_new = x - f(x)/df(x)` as the source computes it
(the loop only takes it after checking `df(x) ≠ 0`; with rational division
the formula is total, which lets the iterate sequence below be total). -/
def nStep (f df : ℚ → ℚ) (x : ℚ) : ℚ := x - f x / df x

/-- The sequence of Newton iterates from `x0`. -/
def nIter (f df : ℚ → ℚ) (x0 : ℚ) : ℕ → ℚ
  | 0 => x0
  | k + 1 => nStep f df (nIter f df x0 k)

theorem nIter_shift (f df : ℚ → ℚ) (x0 : ℚ) :
    ∀ k, nIter f df (nStep f df x0) k = nIter f df x0 (k + 1) := by
  intro k
  induction k with
  | zero => rfl
  | succ k ih => simp only [nIter, ih]

/-- The record logged by the `(base + k + 1)`-st Newton iteration when the
run's `k`-th logged step starts from iterate `nIter f df x0 k`. -/
def nRec (f df : ℚ → ℚ) (x0 : ℚ) (base k : ℕ) : NRow :=
  ⟨base + k + 1, nIter f df x0 k, nIter f df x0 (k + 1), f (nIter f df x0 k),
   df (nIter f df x0 k), |nIter f df x0 (k + 1) - nIter f df x0 k|⟩

theorem nRec_shift (f df : ℚ → ℚ) (x0 : ℚ) (base k : ℕ) :
    nRec f df x0 base (k + 1) = nRec f df (nStep f df x0) (base + 1) k := by
  simp only [nRec, nIter_shift]
  congr 1
  omega

theorem range_map_nRec_succ (f df : ℚ → ℚ) (x : ℚ) (base j : ℕ) :
    (List.range (j + 1)).map (nRec f df x base) =
      nRec f df x base 0 ::
        (List.range j).map (nRec f df (nStep f df x) (base + 1)) := by
  rw [List.range_succ_eq_map, List.map_cons, List.map_map]
  congr 1
  apply List.map_congr_left
  intro k _
  show nRec f df x base (k + 1) = _
  exact nRec_shift f df x base k

/-- Loop-level characterisation of the zero-derivative raise: the Newton
loop raises it exactly when, along the iterate sequence, some iterate
within the remaining fuel has `df = 0` while all earlier iterates passed
the derivative check and failed the convergence test; the log carried by
the raise holds exactly the records of the earlier iterations. -/
theorem newtonGo_zero_deriv_iff (f df : ℚ → ℚ) (tol : ℚ) (maxIter : ℕ) :
    ∀ (fuel : ℕ) (x : ℚ) (errOpt : Option ℚ) (logs : List NRow) (L : List NRow),
      logs.length + fuel = maxIter →
      (newtonGo f df tol maxIter fuel x errOpt logs =
        .error (.zeroDivisionError "Zero derivative encountered in Newton-Raphson", L) ↔
      ∃ j, j < fuel ∧ df (nIter f df x j) = 0 ∧
        (∀ k < j, df (nIter f df x k) ≠ 0 ∧
          ¬ |nIter f df x (k + 1) - nIter f df x k| < tol) ∧
        L = logs ++ (List.range j).map (nRec f df x logs.length)) := by
  intro fuel
  induction fuel with
  | zero =>
      intro x errOpt logs L hlen
      constructor
      · intro h
        cases errOpt with
        | none => simp [newtonGo] at h
        | some e0 => simp [newtonGo] at h
      · rintro ⟨j, hj, _⟩
        omega
  | succ n ih =>
      intro x errOpt logs L hlen
      simp only [newtonGo]
      by_cases hdf : df x = 0
      · rw [if_pos hdf]
        constructor
        · intro h
          simp only [Except.error.injEq, Prod.mk.injEq] at h
          refine ⟨0, by omega, hdf, fun k hk => absurd hk (Nat.not_lt_zero k), ?_⟩
          simp [h.2.symm]
        · rintro ⟨j, hj, hdfj, hprev, hL⟩
          cases j with
          | zero =>
              simp only [List.range_zero, List.map_nil, List.append_nil] at hL
              rw [hL]
          | succ j' => exact absurd hdf ((hprev 0 (by omega)).1)
      · rw [if_neg hdf]
        by_cases hcv : |x - f x / df x - x| < tol
        · rw [if_pos hcv]
          constructor
          · intro h
            cases h
          · rintro ⟨j, hj, hdfj, hprev, hL⟩
            exfalso
            cases j with
            | zero => exact hdf hdfj
            | succ j' =>
                have h0 := (hprev 0 (by omega)).2
                simp only [nIter, nStep] at h0
                exact h0 hcv
        · rw [if_neg hcv]
          have hshift : ∀ k, nIter f df (x - f x / df x) k = nIter f df x (k + 1) :=
            fun k => nIter_shift f df x k
          have ihs := ih (x - f x / df x) (some |x - f x / df x - x|)
            (logs ++ [⟨maxIter - n, x, x - f x / df x, f x, df x,
              |x - f x / df x - x|⟩]) L
            (by simp only [List.length_append, List.length_singleton]; omega)
          rw [ihs]
          have hrow0 : nRec f df x logs.length 0 =
              ⟨maxIter - n, x, x - f x / df x, f x, df x, |x - f x / df x - x|⟩ := by
            simp only [nRec, nIter, nStep]
            congr 1
            omega
          constructor
          · rintro ⟨j, hj, hdfj, hprev, hL⟩
            refine ⟨j + 1, by omega, ?_, ?_, ?_⟩
            · rw [← hshift j]
              exact hdfj
            · intro k hk
              cases k with
              | zero => exact ⟨hdf, hcv⟩
              | succ k' =>
                  have hp := hprev k' (by omega)
                  rw [hshift k', hshift (k' + 1)] at hp
                  exact hp
            · have hmap' : (List.range (j + 1)).map (nRec f df x logs.length) =
                  nRec f df x logs.length 0 ::
                    (List.range j).map (nRec f df (x - f x / df x) (logs.length + 1)) :=
                range_map_nRec_succ f df x logs.length j
              rw [hL, hmap', hrow0]
              simp only [List.length_append, List.length_singleton,
                List.append_assoc, List.singleton_append]
          · rintro ⟨j, hj, hdfj, hprev, hL⟩
            cases j with
            | zero => exact absurd hdfj hdf
            | succ j' =>
                refine ⟨j', by omega, ?_, ?_, ?_⟩
                · rw [hshift j']
                  exact hdfj
                · intro k hk
                  have hp := hprev (k + 1) (by omega)
                  rw [← hshift k, ← hshift (k + 1)] at hp
                  exact hp
                · have hmap' : (List.range (j' + 1)).map (nRec f df x logs.length) =
                      nRec f df x logs.length 0 ::
                        (List.range j').map
                          (nRec f df (x - f x / df x) (logs.length + 1)) :=
                    range_map_nRec_succ f df x logs.length j'
                  rw [hL, hmap', hrow0]
                  simp only [List.length_append, List.length_singleton,
                    List.append_assoc, List.singleton_append]

/-- C6.  Newton-Raphson raises the zero-derivative error exactly when some
iterate `x_j` (within the iteration budget) has `df(x_j) = 0` while every
earlier iterate passed the derivative check and failed the convergence
test; the log carried at the raise holds exactly the records of the
iterations strictly before the failing one — the failing iteration itself
is never logged. -/
theorem newton_zero_derivative_iff (f df : ℚ → ℚ) (x0 tol : ℚ)
    (maxIter : ℕ) (L : List NRow) :
    newton_raphson f df x0 tol maxIter =
      .error (.zeroDivisionError "Zero derivative encountered in Newton-Raphson", L) ↔
    ∃ j, j < maxIter ∧ df (nIter f df x0 j) = 0 ∧
      (∀ k < j, df (nIter f df x0 k) ≠ 0 ∧
        ¬ |nIter f df x0 (k + 1) - nIter f df x0 k| < tol) ∧
      L = (List.range j).map (nRec f df x0 0) := by
  have h := newtonGo_zero_deriv_iff f df tol maxIter maxIter x0 none [] L
    (by simp)
  simpa [newton_raphson] using h

/-- C6, witness: `f(x) = x` with `df(x) = x` from `x0 = 2` reaches the
iterates `2, 1, 0`; the derivative vanishes at the third iteration, which
raises with exactly the two earlier records logged. -/
theorem newton_zero_derivative_iff_witness :
    newton_raphson (fun x => x) (fun x => x) 2 (1/10) 5 =
      .error (.zeroDivisionError "Zero derivative encountered in Newton-Raphson",
        [⟨1, 2, 1, 2, 2, 1⟩, ⟨2, 1, 0, 1, 1, 1⟩]) :=
  (newton_zero_derivative_iff (fun x => x) (fun x => x) 2 (1/10) 5
    [⟨1, 2, 1, 2, 2, 1⟩, ⟨2, 1, 0, 1, 1, 1⟩]).mpr
    ⟨2, by norm_num, by norm_num [nIter, nStep],
     by
      intro k hk
      interval_cases k <;>
        norm_num [nIter, nStep, abs_of_nonneg, abs_of_nonpos],
     by
      norm_num [nRec, nIter, nStep, List.range_succ, abs_of_nonneg,
        abs_of_nonpos]⟩

end ZOF
